import Mathlib

open Filter

set_option linter.unusedVariables false

/-! ## Definitions: the shallow embedding and the concrete states used below -/

/-- Clamp a rational to the interval [0,1]; models the two sequential
`if (D < 0.0) D = 0.0; if (D > 1.0) D = 1.0;` statements in `hctree.c`. -/
def clamp01 (x : ℚ) : ℚ :=
  if x < 0 then 0 else if 1 < x then 1 else x

/-- Modelled from the spec: the `insert` of the external Ordered Index Service
(upsert semantics), for the B-tree instances whose implementation is not in
this layer.  The store is a key-sorted association list; inserting an
existing key replaces its payload. -/
def bt_insert {V : Type} : List (Int × V) → Int → V → List (Int × V)
  | [], k, v => [(k, v)]
  | (k₁, v₁) :: t, k, v =>
    if k < k₁ then (k, v) :: (k₁, v₁) :: t
    else if k = k₁ then (k, v) :: t
    else (k₁, v₁) :: bt_insert t k v

/-- Modelled from the spec: the point `search` of the external Ordered Index Service, returning `payload | absent`. -/
def bt_search {V : Type} : List (Int × V) → Int → Option V
  | [], _ => none
  | (k₁, v₁) :: t, k => if k = k₁ then some v₁ else bt_search t k

/-- Modelled from the spec: the `count_keys` of the external Ordered Index Service. -/
def bt_count_keys {V : Type} (t : List (Int × V)) : Nat :=
  t.length

/-- Modelled from the spec: the `range_search` of the external Ordered Index Service, which presents each matching key once, in ascending key
order (the list order of the sorted store). -/
def bt_range {V : Type} (t : List (Int × V)) (lo hi : Int) : List (Int × V) :=
  t.filter fun kv => decide (lo ≤ kv.1) && decide (kv.1 ≤ hi)

/-- Configuration record `HCParams` of `hctree.h`/`hctree.c`. -/
structure HCParams where
  adapt_sampling : Bool
  sampling_rate : ℚ
  decay_alpha : ℚ
  hot_threshold : ℚ
  max_hot_fraction : ℚ
  inclusive : Bool
  deriving DecidableEq

/-- Cumulative counters of `HCStats` that live in `idx->stats` (the
derived fields `hot_keys`, `cold_keys`, `final_sampling_rate` are filled in
only by `hc_get_stats`). -/
structure HCStats where
  queries : Nat
  hot_hits : Nat
  cold_hits : Nat
  not_found : Nat
  hot_node_visits : Nat
  cold_node_visits : Nat
  deriving DecidableEq

/-- State of an `HCIndex`: the two tiers, the key-domain bound, the dense
per-key score array (modelled as an association list defaulting to 0, the
value `calloc` gives every slot), the parameters, the cumulative stats and
the memory of the sampling-rate adapter. -/
structure HCIndex (V : Type) where
  hot : List (Int × V)
  cold : List (Int × V)
  max_key : Int
  hit_score : List (Int × ℚ)
  params : HCParams
  stats : HCStats
  last_q_for_adapt : Nat
  last_cost : ℚ
  last_D : ℚ
  deriving DecidableEq

/-- Reading a slot of the score array: absent slots hold the initial 0. -/
def scoreGet {V : Type} (s : HCIndex V) (k : Int) : ℚ :=
  (bt_search s.hit_score k).getD 0

/-- Outcome reported by an operation: `hc_insert` reports out-of-range via
its guard (the `fprintf` branch), a lookup reports a hot hit, a cold hit or
not-found via its return value and the counter it increments. -/
inductive HCOutcome where
  | okInsert
  | outOfRange
  | foundHot
  | foundCold
  | notFound
  deriving DecidableEq

/-- `hc_create`: empty tiers, zeroed score array and stats, adapter state
seeded with `last_D = params.sampling_rate`.  The B-tree degree only
parameterizes the external collaborator, which the model keeps abstract. -/
def hc_create (V : Type) (max_key : Int) (degree : Nat) (params : HCParams) : HCIndex V :=
  { hot := []
    cold := []
    max_key := max_key
    hit_score := []
    params := params
    stats := ⟨0, 0, 0, 0, 0, 0⟩
    last_q_for_adapt := 0
    last_cost := 0
    last_D := params.sampling_rate }

/-- `hc_insert`: reject keys outside `[0, max_key]` with no mutation,
otherwise upsert into the cold tier only. -/
def hc_insert {V : Type} (s : HCIndex V) (k : Int) (v : V) : HCIndex V × HCOutcome :=
  if k < 0 ∨ s.max_key < k then (s, HCOutcome.outOfRange)
  else ({ s with cold := bt_insert s.cold k v }, HCOutcome.okInsert)

/-- `hc_maybe_adapt_sampling`: the hill-climbing controller for the
sampling rate.  No-op unless adaptation is enabled and at least 5000
queries have elapsed since the previous adaptation point. -/
def hc_maybe_adapt_sampling {V : Type} (s : HCIndex V) : HCIndex V :=
  if s.params.adapt_sampling then
    if (s.stats.queries : Int) - (s.last_q_for_adapt : Int) < 5000 then s
    else
      let q := s.stats.queries
      let total_nodes : ℚ := (s.stats.hot_node_visits : ℚ) + (s.stats.cold_node_visits : ℚ)
      let cost : ℚ := if 0 < q then total_nodes / (q : ℚ) else 0
      let D := s.params.sampling_rate
      let D₁ :=
        if s.last_q_for_adapt = 0 then
          let hot_frac : ℚ := (s.stats.hot_hits : ℚ) / ((if q = 0 then 1 else q : Nat) : ℚ)
          if hot_frac < 3/5 then D + 1/20 else D - 1/20
        else
          let dC := cost - s.last_cost
          let dD := D - s.last_D
          if |dD| < 1/1000000000 then
            let hot_frac : ℚ := (s.stats.hot_hits : ℚ) / ((if q = 0 then 1 else q : Nat) : ℚ)
            if hot_frac < 3/5 then D + 1/20 else D - 1/20
          else if dC * dD < 0 then D + (1/20) * (if 0 < dD then 1 else -1)
          else if 0 < dC * dD then D - (1/20) * (if 0 < dD then 1 else -1)
          else D
      { s with
          last_D := s.params.sampling_rate
          last_cost := cost
          last_q_for_adapt := q
          params := { s.params with sampling_rate := clamp01 D₁ } }
  else s

/-- `maybe_promote`: sampling gate (draw `u`, abort if `u > D`), capacity
gate, idempotence gate, source-of-truth fetch from cold, then insert into
hot.  The internal probes use local `BTStats` that are dropped. -/
def maybe_promote {V : Type} (s : HCIndex V) (k : Int) (u : ℚ) : HCIndex V :=
  if s.params.inclusive then
    let D := clamp01 s.params.sampling_rate
    if D < u then s
    else
      let total_keys : Int := s.max_key + 1
      let hot_keys := bt_count_keys s.hot
      let max_hot : ℚ := s.params.max_hot_fraction * (total_keys : ℚ)
      if max_hot ≤ (hot_keys : ℚ) then s
      else
        match bt_search s.hot k with
        | some _ => s
        | none =>
          match bt_search s.cold k with
          | none => s
          | some v => { s with hot := bt_insert s.hot k v }
  else s

/-- Result of `hc_search`: the successor state, the returned payload
(`none` models the `NULL` return) and the reported outcome. -/
structure SearchOut (V : Type) where
  state : HCIndex V
  payload : Option V
  outcome : HCOutcome
  deriving DecidableEq

/-- `hc_search`: bump the query counter, run the adapter, probe hot
(accumulating the reported visit count `hv`), on a miss probe cold
(accumulating `cv`); on a hit update the decayed score of an in-domain key
and, on a cold hit whose updated score reaches the threshold, invoke the
promotion controller with random draw `u`. -/
def hc_search {V : Type} (s : HCIndex V) (k : Int) (u : ℚ) (hv cv : Nat) : SearchOut V :=
  let s₁ := { s with stats := { s.stats with queries := s.stats.queries + 1 } }
  let s₂ := hc_maybe_adapt_sampling s₁
  let s₃ := { s₂ with stats := { s₂.stats with hot_node_visits := s₂.stats.hot_node_visits + hv } }
  match bt_search s₃.hot k with
  | some v =>
    let s₄ := { s₃ with stats := { s₃.stats with hot_hits := s₃.stats.hot_hits + 1 } }
    let s₅ :=
      if 0 ≤ k ∧ k ≤ s₄.max_key then
        { s₄ with hit_score := bt_insert s₄.hit_score k (s₄.params.decay_alpha * scoreGet s₄ k + 1) }
      else s₄
    ⟨s₅, some v, HCOutcome.foundHot⟩
  | none =>
    let s₄ := { s₃ with stats := { s₃.stats with cold_node_visits := s₃.stats.cold_node_visits + cv } }
    match bt_search s₄.cold k with
    | some v =>
      let s₅ := { s₄ with stats := { s₄.stats with cold_hits := s₄.stats.cold_hits + 1 } }
      let s₆ :=
        if 0 ≤ k ∧ k ≤ s₅.max_key then
          let new_score := s₅.params.decay_alpha * scoreGet s₅ k + 1
          let s₆a := { s₅ with hit_score := bt_insert s₅.hit_score k new_score }
          if s₅.params.hot_threshold ≤ new_score then maybe_promote s₆a k u else s₆a
        else s₅
      ⟨s₆, some v, HCOutcome.foundCold⟩
    | none =>
      ⟨{ s₄ with stats := { s₄.stats with not_found := s₄.stats.not_found + 1 } }, none,
        HCOutcome.notFound⟩

/-- One step of the deduplicating range-scan callback (`hc_range_cb_hot`
and `hc_range_cb_cold` are textually identical): skip out-of-domain keys,
skip keys already marked seen, otherwise mark seen and emit. -/
def rangeStep {V : Type} (mk : Int) (p : List Int × List (Int × V)) (kv : Int × V) :
    List Int × List (Int × V) :=
  if kv.1 < 0 ∨ mk < kv.1 then p
  else if kv.1 ∈ p.1 then p
  else (kv.1 :: p.1, p.2 ++ [kv])

/-- The sequence of `(key, payload)` pairs handed to the user callback by
`hc_range_search`: the matches of the hot tier first, then the matches of the cold tier not already seen. -/
def hc_range_emit {V : Type} (s : HCIndex V) (lo hi : Int) : List (Int × V) :=
  (List.foldl (rangeStep s.max_key)
    (List.foldl (rangeStep s.max_key) ([], []) (bt_range s.hot lo hi))
    (bt_range s.cold lo hi)).2

/-- `hc_range_search`: scan both tiers over `[lo, hi]` with the dedup
callbacks, then accumulate the two reported visit counts into the stats. -/
def hc_range_search {V : Type} (s : HCIndex V) (lo hi : Int) (hv cv : Nat) :
    HCIndex V × List (Int × V) :=
  ({ s with stats := { s.stats with
      hot_node_visits := s.stats.hot_node_visits + hv
      cold_node_visits := s.stats.cold_node_visits + cv } },
   hc_range_emit s lo hi)

/-- Snapshot returned by `hc_get_stats`: the cumulative counters plus live
key counts and the current sampling rate. -/
structure HCStatsOut where
  queries : Nat
  hot_hits : Nat
  cold_hits : Nat
  not_found : Nat
  hot_node_visits : Nat
  cold_node_visits : Nat
  hot_keys : Nat
  cold_keys : Nat
  final_sampling_rate : ℚ
  deriving DecidableEq

/-- `hc_get_stats`: read-only aggregation. -/
def hc_get_stats {V : Type} (s : HCIndex V) : HCStatsOut :=
  { queries := s.stats.queries
    hot_hits := s.stats.hot_hits
    cold_hits := s.stats.cold_hits
    not_found := s.stats.not_found
    hot_node_visits := s.stats.hot_node_visits
    cold_node_visits := s.stats.cold_node_visits
    hot_keys := bt_count_keys s.hot
    cold_keys := bt_count_keys s.cold
    final_sampling_rate := s.params.sampling_rate }

/-- External calls into the facade, with the oracle data (random draw,
reported visit counts) each call consumes. -/
inductive HCOp (V : Type) where
  | insert (k : Int) (v : V)
  | search (k : Int) (u : ℚ) (hv cv : Nat)
  | range (lo hi : Int) (hv cv : Nat)
  | getStats
  deriving DecidableEq

/-- State transition of one facade call. -/
def hcStep {V : Type} (s : HCIndex V) : HCOp V → HCIndex V
  | HCOp.insert k v => (hc_insert s k v).1
  | HCOp.search k u hv cv => (hc_search s k u hv cv).state
  | HCOp.range lo hi hv cv => (hc_range_search s lo hi hv cv).1
  | HCOp.getStats => s

/-- Run a sequence of facade calls. -/
def hcRun {V : Type} (s : HCIndex V) (ops : List (HCOp V)) : HCIndex V :=
  ops.foldl hcStep s

/-- Key set of a tier, as the list of keys it stores. -/
def keysOf {V : Type} (t : List (Int × V)) : List Int :=
  t.map Prod.fst

/-- Iterated point lookups of one key: state after `n` consecutive
`hc_search` calls on `k`, with per-call oracle sequences. -/
def searchIter {V : Type} (s : HCIndex V) (k : Int) (us : Nat → ℚ) (hvs cvs : Nat → Nat) :
    Nat → HCIndex V
  | 0 => s
  | n + 1 => (hc_search (searchIter s k us hvs cvs n) k (us n) (hvs n) (cvs n)).state

/-- Invariant maintained by every facade call from creation onward: key-set
inclusion of hot in cold, the domain bound on all stored keys, and the
capacity bound on the hot tier. -/
def HCInv {V : Type} (s : HCIndex V) : Prop :=
  (∀ x, x ∈ keysOf s.hot → x ∈ keysOf s.cold) ∧
    (∀ x, x ∈ keysOf s.cold → 0 ≤ x ∧ x ≤ s.max_key) ∧
    (bt_count_keys s.hot = 0 ∨
      ((bt_count_keys s.hot : ℚ) - 1) <
        s.params.max_hot_fraction * ((s.max_key + 1 : Int) : ℚ))

def c1params : HCParams :=
  ⟨false, 1, 0, 1, 1, true⟩

def c1ops : List (HCOp Nat) :=
  [HCOp.insert 0 1, HCOp.search 0 0 0 0, HCOp.insert 0 2]

def c1state : HCIndex Nat :=
  hcRun (hc_create Nat 9 4 c1params) c1ops

def c1wops : List (HCOp Nat) :=
  [HCOp.insert 0 1, HCOp.search 0 0 0 0]

def c2params : HCParams :=
  ⟨false, 1, 0, 1, 1, true⟩

def c3params : HCParams :=
  ⟨false, 1, 0, 1, 1/2, true⟩

def c3ops : List (HCOp Nat) :=
  [HCOp.insert 0 10, HCOp.insert 1 11, HCOp.insert 2 12,
   HCOp.search 0 0 0 0, HCOp.search 1 0 0 0, HCOp.search 2 0 0 0]

def c3state : HCIndex Nat :=
  hcRun (hc_create Nat 4 4 c3params) c3ops

def c5params : HCParams :=
  ⟨false, 1, 0, 1, 1, true⟩

def c5state : HCIndex Nat :=
  ⟨[(1, 5)], [(0, 4), (1, 5), (7, 9)], 9, [], c5params, ⟨0, 0, 0, 0, 0, 0⟩, 0, 0, 1⟩

def c6params : HCParams :=
  ⟨true, 1/2, 0, 1, 1, true⟩

def c6ops : List (HCOp Nat) :=
  [HCOp.insert 0 1, HCOp.search 0 0 0 0, HCOp.search 0 0 0 0]

def c7state : HCIndex Nat :=
  ⟨[], [], 9, [], ⟨true, 3/5, 0, 1, 1, true⟩, ⟨6000, 0, 0, 0, 600, 0⟩, 1000, 0, 1/2⟩

def c4params : HCParams :=
  ⟨true, 1, 0, 1, 1, true⟩

def c4state : HCIndex Nat :=
  ⟨[(0, 10)], [(0, 10), (1, 20)], 9, [], c4params, ⟨5000, 4000, 1000, 0, 0, 0⟩, 0, 0, 1⟩

def c4wstate : HCIndex Nat :=
  ⟨[], [(3, 7)], 9, [], ⟨false, 1, 0, 1, 1, true⟩, ⟨0, 0, 0, 0, 0, 0⟩, 0, 0, 1⟩

def c8params : HCParams :=
  ⟨false, 1, 0, 10, 1, true⟩

def c8state : HCIndex Nat :=
  hcRun (hc_create Nat 4 4 c8params) [HCOp.insert 0 5]

def c8iter : Nat → HCIndex Nat :=
  searchIter c8state 0 (fun _ => 0) (fun _ => 0) (fun _ => 0)

def c8wparams : HCParams :=
  ⟨false, 1, 1/2, 10, 1, true⟩

def c8wstate : HCIndex Nat :=
  hcRun (hc_create Nat 4 4 c8wparams) [HCOp.insert 0 5]

/-! ## Theorems -/

/-!
Verification development for the two-tier hot/cold index layer (`hctree.c`).

The tiering layer is embedded shallowly: the external ordered-index
collaborator (the B-tree service, whose code is not part of this layer) is
modelled from its stated contract as a key-ordered association list with
upsert insertion, point lookup, ascending range iteration and key counting.
Per-operation node-visit counts and the uniform random draw used by the
promotion controller are supplied by the environment as explicit oracle
arguments, since the collaborator contract leaves the visit counts
unspecified and `rand()` is external.  C `double` arithmetic is modelled by
exact rational arithmetic.
-/

/-! ### Basic lemmas about the ordered-index model -/

theorem bt_search_bt_insert_self {V : Type} (t : List (Int × V)) (k : Int) (v : V) :
    bt_search (bt_insert t k v) k = some v := by
  induction t with
  | nil => simp [bt_insert, bt_search]
  | cons hd tl ih =>
    obtain ⟨k₁, v₁⟩ := hd
    by_cases h₁ : k < k₁
    · simp [bt_insert, h₁, bt_search]
    · by_cases h₂ : k = k₁
      · simp [bt_insert, h₁, h₂, bt_search]
      · simp [bt_insert, h₁, h₂, bt_search, ih]

theorem mem_keysOf_bt_insert {V : Type} (t : List (Int × V)) (k m : Int) (v : V) :
    m ∈ keysOf (bt_insert t k v) ↔ m = k ∨ m ∈ keysOf t := by
  induction t with
  | nil => simp [bt_insert, keysOf]
  | cons hd tl ih =>
    obtain ⟨k₁, v₁⟩ := hd
    simp only [bt_insert]
    split_ifs with h₁ h₂
    · simp only [keysOf, List.map_cons, List.mem_cons]
    · subst h₂
      simp only [keysOf, List.map_cons, List.mem_cons]
      tauto
    · simp only [keysOf, List.map_cons, List.mem_cons] at ih ⊢
      rw [ih]
      tauto

theorem mem_keysOf_of_bt_search {V : Type} (t : List (Int × V)) (k : Int) (v : V)
    (h : bt_search t k = some v) : k ∈ keysOf t := by
  induction t with
  | nil => simp [bt_search] at h
  | cons hd tl ih =>
    obtain ⟨k₁, v₁⟩ := hd
    by_cases h₁ : k = k₁
    · simp [keysOf, h₁]
    · simp only [bt_search, if_neg h₁] at h
      simp [keysOf] at ih ⊢
      exact Or.inr (ih h)

theorem bt_search_eq_none_of_not_mem {V : Type} (t : List (Int × V)) (k : Int)
    (h : k ∉ keysOf t) : bt_search t k = none := by
  induction t with
  | nil => simp [bt_search]
  | cons hd tl ih =>
    obtain ⟨k₁, v₁⟩ := hd
    simp only [keysOf, List.map_cons, List.mem_cons, not_or] at h
    have h₂ : k ∉ keysOf tl := h.2
    simp [bt_search, h.1, ih h₂]

theorem bt_count_keys_bt_insert_le {V : Type} (t : List (Int × V)) (k : Int) (v : V) :
    bt_count_keys (bt_insert t k v) ≤ bt_count_keys t + 1 := by
  induction t with
  | nil => simp [bt_insert, bt_count_keys]
  | cons hd tl ih =>
    obtain ⟨k₁, v₁⟩ := hd
    by_cases h₁ : k < k₁
    · simp [bt_insert, h₁, bt_count_keys]
    · by_cases h₂ : k = k₁
      · simp [bt_insert, h₁, h₂, bt_count_keys]
      · simp only [bt_insert, if_neg h₁, if_neg h₂, bt_count_keys, List.length_cons]
        exact Nat.succ_le_succ ih

theorem clamp01_nonneg (x : ℚ) : 0 ≤ clamp01 x := by
  unfold clamp01
  split_ifs with h₁ h₂ <;> linarith

theorem clamp01_le_one (x : ℚ) : clamp01 x ≤ 1 := by
  unfold clamp01
  split_ifs with h₁ h₂ <;> linarith

theorem clamp01_of_mem (x : ℚ) (h₀ : 0 ≤ x) (h₁ : x ≤ 1) : clamp01 x = x := by
  unfold clamp01
  split_ifs with a b <;> linarith

/-! ### Frame lemmas for the sampling-rate adapter -/

theorem adapt_hot {V : Type} (s : HCIndex V) :
    (hc_maybe_adapt_sampling s).hot = s.hot := by
  unfold hc_maybe_adapt_sampling
  split <;> try rfl
  split <;> rfl

theorem adapt_cold {V : Type} (s : HCIndex V) :
    (hc_maybe_adapt_sampling s).cold = s.cold := by
  unfold hc_maybe_adapt_sampling
  split <;> try rfl
  split <;> rfl

theorem adapt_hit_score {V : Type} (s : HCIndex V) :
    (hc_maybe_adapt_sampling s).hit_score = s.hit_score := by
  unfold hc_maybe_adapt_sampling
  split <;> try rfl
  split <;> rfl

theorem adapt_max_key {V : Type} (s : HCIndex V) :
    (hc_maybe_adapt_sampling s).max_key = s.max_key := by
  unfold hc_maybe_adapt_sampling
  split <;> try rfl
  split <;> rfl

theorem adapt_stats {V : Type} (s : HCIndex V) :
    (hc_maybe_adapt_sampling s).stats = s.stats := by
  unfold hc_maybe_adapt_sampling
  split <;> try rfl
  split <;> rfl

theorem adapt_adapt_sampling {V : Type} (s : HCIndex V) :
    (hc_maybe_adapt_sampling s).params.adapt_sampling = s.params.adapt_sampling := by
  unfold hc_maybe_adapt_sampling
  split <;> try rfl
  split <;> rfl

theorem adapt_decay_alpha {V : Type} (s : HCIndex V) :
    (hc_maybe_adapt_sampling s).params.decay_alpha = s.params.decay_alpha := by
  unfold hc_maybe_adapt_sampling
  split <;> try rfl
  split <;> rfl

theorem adapt_hot_threshold {V : Type} (s : HCIndex V) :
    (hc_maybe_adapt_sampling s).params.hot_threshold = s.params.hot_threshold := by
  unfold hc_maybe_adapt_sampling
  split <;> try rfl
  split <;> rfl

theorem adapt_max_hot_fraction {V : Type} (s : HCIndex V) :
    (hc_maybe_adapt_sampling s).params.max_hot_fraction = s.params.max_hot_fraction := by
  unfold hc_maybe_adapt_sampling
  split <;> try rfl
  split <;> rfl

theorem adapt_inclusive {V : Type} (s : HCIndex V) :
    (hc_maybe_adapt_sampling s).params.inclusive = s.params.inclusive := by
  unfold hc_maybe_adapt_sampling
  split <;> try rfl
  split <;> rfl

theorem adapt_of_not_trigger {V : Type} (s : HCIndex V)
    (h : s.params.adapt_sampling = false ∨ (s.stats.queries : Int) - (s.last_q_for_adapt : Int) < 5000) :
    hc_maybe_adapt_sampling s = s := by
  rcases h with h | h
  · simp [hc_maybe_adapt_sampling, h]
  · by_cases ha : s.params.adapt_sampling = true
    · simp only [hc_maybe_adapt_sampling, ha, if_true]
      rw [if_pos h]
    · simp [hc_maybe_adapt_sampling, ha]

theorem adapt_rate_cases {V : Type} (s : HCIndex V) :
    (hc_maybe_adapt_sampling s).params.sampling_rate = s.params.sampling_rate ∨
      ∃ x, (hc_maybe_adapt_sampling s).params.sampling_rate = clamp01 x := by
  unfold hc_maybe_adapt_sampling
  split
  · split
    · exact Or.inl rfl
    · exact Or.inr ⟨_, rfl⟩
  · exact Or.inl rfl

/-! ### Case analysis of the promotion controller -/

theorem maybe_promote_not_inclusive {V : Type} (s : HCIndex V) (k : Int) (u : ℚ)
    (h : ¬s.params.inclusive = true) : maybe_promote s k u = s := by
  simp only [maybe_promote]
  split_ifs with h₁ h₂ h₃ <;> first | rfl | exact absurd h₁ h

theorem maybe_promote_sampled_out {V : Type} (s : HCIndex V) (k : Int) (u : ℚ)
    (h : clamp01 s.params.sampling_rate < u) : maybe_promote s k u = s := by
  simp only [maybe_promote]
  split_ifs with h₁ h₂ h₃ <;> first | rfl | exact absurd h h₂

theorem maybe_promote_eq_of_capacity {V : Type} (s : HCIndex V) (k : Int) (u : ℚ)
    (h : s.params.max_hot_fraction * ((s.max_key + 1 : Int) : ℚ) ≤ (bt_count_keys s.hot : ℚ)) :
    maybe_promote s k u = s := by
  simp only [maybe_promote]
  split_ifs with h₁ h₂ h₃ <;> first | rfl | exact absurd h h₃

theorem maybe_promote_already_hot {V : Type} (s : HCIndex V) (k : Int) (u : ℚ) (w : V)
    (hh : bt_search s.hot k = some w) : maybe_promote s k u = s := by
  simp only [maybe_promote]
  split_ifs with h₁ h₂ h₃ <;> try rfl
  rw [hh]

theorem maybe_promote_cold_absent {V : Type} (s : HCIndex V) (k : Int) (u : ℚ)
    (hh : bt_search s.hot k = none) (hc : bt_search s.cold k = none) :
    maybe_promote s k u = s := by
  simp only [maybe_promote]
  split_ifs with h₁ h₂ h₃ <;> try rfl
  rw [hh, hc]

theorem maybe_promote_success {V : Type} (s : HCIndex V) (k : Int) (u : ℚ) (v : V)
    (hinc : s.params.inclusive = true) (hu : u ≤ clamp01 s.params.sampling_rate)
    (hcap : (bt_count_keys s.hot : ℚ) < s.params.max_hot_fraction * ((s.max_key + 1 : Int) : ℚ))
    (hh : bt_search s.hot k = none) (hc : bt_search s.cold k = some v) :
    maybe_promote s k u = { s with hot := bt_insert s.hot k v } := by
  simp only [maybe_promote, hinc, if_true]
  split_ifs with h₂ h₃
  · exact absurd h₂ (not_lt.mpr hu)
  · exact absurd h₃ (not_le.mpr hcap)
  · rw [hh, hc]

theorem maybe_promote_cases {V : Type} (s : HCIndex V) (k : Int) (u : ℚ) :
    maybe_promote s k u = s ∨
      ∃ v, s.params.inclusive = true ∧ bt_search s.hot k = none ∧ bt_search s.cold k = some v ∧
        (bt_count_keys s.hot : ℚ) < s.params.max_hot_fraction * ((s.max_key + 1 : Int) : ℚ) ∧
        maybe_promote s k u = { s with hot := bt_insert s.hot k v } := by
  by_cases hinc : s.params.inclusive = true
  · by_cases hu : clamp01 s.params.sampling_rate < u
    · exact Or.inl (maybe_promote_sampled_out s k u hu)
    · by_cases hcap : s.params.max_hot_fraction * ((s.max_key + 1 : Int) : ℚ) ≤ (bt_count_keys s.hot : ℚ)
      · exact Or.inl (maybe_promote_eq_of_capacity s k u hcap)
      · cases hh : bt_search s.hot k with
        | some w => exact Or.inl (maybe_promote_already_hot s k u w hh)
        | none =>
          cases hc : bt_search s.cold k with
          | none => exact Or.inl (maybe_promote_cold_absent s k u hh hc)
          | some v =>
            exact Or.inr ⟨v, hinc, rfl, rfl, lt_of_not_le hcap,
              maybe_promote_success s k u v hinc (not_lt.mp hu) (lt_of_not_le hcap) hh hc⟩
  · exact Or.inl (maybe_promote_not_inclusive s k u hinc)

theorem maybe_promote_frame {V : Type} (s : HCIndex V) (k : Int) (u : ℚ) :
    (maybe_promote s k u).cold = s.cold ∧ (maybe_promote s k u).max_key = s.max_key ∧
      (maybe_promote s k u).hit_score = s.hit_score ∧ (maybe_promote s k u).params = s.params ∧
      (maybe_promote s k u).stats = s.stats ∧
      (maybe_promote s k u).last_q_for_adapt = s.last_q_for_adapt ∧
      (maybe_promote s k u).last_cost = s.last_cost ∧ (maybe_promote s k u).last_D = s.last_D := by
  rcases maybe_promote_cases s k u with h | ⟨v, _, _, _, _, h⟩ <;>
    rw [h] <;> exact ⟨rfl, rfl, rfl, rfl, rfl, rfl, rfl, rfl⟩

theorem maybe_promote_hot_cases {V : Type} (s : HCIndex V) (k : Int) (u : ℚ) :
    (maybe_promote s k u).hot = s.hot ∨
      ∃ v, bt_search s.hot k = none ∧ bt_search s.cold k = some v ∧
        (bt_count_keys s.hot : ℚ) < s.params.max_hot_fraction * ((s.max_key + 1 : Int) : ℚ) ∧
        (maybe_promote s k u).hot = bt_insert s.hot k v := by
  rcases maybe_promote_cases s k u with h | ⟨v, _, h₁, h₂, h₃, h⟩
  · exact Or.inl (by rw [h])
  · exact Or.inr ⟨v, h₁, h₂, h₃, by rw [h]⟩

theorem maybe_promote_cold {V : Type} (s : HCIndex V) (k : Int) (u : ℚ) :
    (maybe_promote s k u).cold = s.cold :=
  (maybe_promote_frame s k u).1

theorem maybe_promote_max_key {V : Type} (s : HCIndex V) (k : Int) (u : ℚ) :
    (maybe_promote s k u).max_key = s.max_key :=
  (maybe_promote_frame s k u).2.1

theorem maybe_promote_hit_score {V : Type} (s : HCIndex V) (k : Int) (u : ℚ) :
    (maybe_promote s k u).hit_score = s.hit_score :=
  (maybe_promote_frame s k u).2.2.1

theorem maybe_promote_params {V : Type} (s : HCIndex V) (k : Int) (u : ℚ) :
    (maybe_promote s k u).params = s.params :=
  (maybe_promote_frame s k u).2.2.2.1

theorem maybe_promote_stats {V : Type} (s : HCIndex V) (k : Int) (u : ℚ) :
    (maybe_promote s k u).stats = s.stats :=
  (maybe_promote_frame s k u).2.2.2.2.1

theorem maybe_promote_last_q {V : Type} (s : HCIndex V) (k : Int) (u : ℚ) :
    (maybe_promote s k u).last_q_for_adapt = s.last_q_for_adapt :=
  (maybe_promote_frame s k u).2.2.2.2.2.1

theorem maybe_promote_last_cost {V : Type} (s : HCIndex V) (k : Int) (u : ℚ) :
    (maybe_promote s k u).last_cost = s.last_cost :=
  (maybe_promote_frame s k u).2.2.2.2.2.2.1

theorem maybe_promote_last_D {V : Type} (s : HCIndex V) (k : Int) (u : ℚ) :
    (maybe_promote s k u).last_D = s.last_D :=
  (maybe_promote_frame s k u).2.2.2.2.2.2.2

/-- Helper for reducing `scoreGet` applied to a literal state. -/
theorem scoreGet_mk {V : Type} (h c : List (Int × V)) (mk : Int) (sc : List (Int × ℚ))
    (p : HCParams) (st : HCStats) (a : Nat) (b d : ℚ) (k : Int) :
    scoreGet (HCIndex.mk h c mk sc p st a b d) k = (bt_search sc k).getD 0 :=
  rfl

/-! ### Case analysis of point lookup -/

theorem hc_search_miss_spec {V : Type} (s : HCIndex V) (k : Int) (u : ℚ) (hv cv : Nat)
    (hh : bt_search s.hot k = none) (hc : bt_search s.cold k = none) :
    (hc_search s k u hv cv).payload = none ∧
      (hc_search s k u hv cv).outcome = HCOutcome.notFound ∧
      (hc_search s k u hv cv).state.hot = s.hot ∧
      (hc_search s k u hv cv).state.cold = s.cold ∧
      (hc_search s k u hv cv).state.hit_score = s.hit_score ∧
      (hc_search s k u hv cv).state.stats.not_found = s.stats.not_found + 1 ∧
      (hc_search s k u hv cv).state.stats.queries = s.stats.queries + 1 := by
  refine ⟨?_, ?_, ?_, ?_, ?_, ?_, ?_⟩ <;>
    simp only [hc_search, adapt_hot, adapt_cold, adapt_hit_score, adapt_stats, adapt_max_key,
      hh, hc]

theorem hc_search_basic {V : Type} (s : HCIndex V) (k : Int) (u : ℚ) (hv cv : Nat) :
    (hc_search s k u hv cv).state.cold = s.cold ∧
      (hc_search s k u hv cv).state.max_key = s.max_key ∧
      (hc_search s k u hv cv).state.params.decay_alpha = s.params.decay_alpha ∧
      (hc_search s k u hv cv).state.params.hot_threshold = s.params.hot_threshold ∧
      (hc_search s k u hv cv).state.params.max_hot_fraction = s.params.max_hot_fraction ∧
      (hc_search s k u hv cv).state.params.inclusive = s.params.inclusive ∧
      (hc_search s k u hv cv).state.params.adapt_sampling = s.params.adapt_sampling := by
  cases hh : bt_search s.hot k with
  | some v =>
    refine ⟨?_, ?_, ?_, ?_, ?_, ?_, ?_⟩ <;>
      simp only [hc_search, adapt_hot, hh] <;> split_ifs <;>
      simp only [adapt_cold, adapt_max_key, adapt_decay_alpha, adapt_hot_threshold,
        adapt_max_hot_fraction, adapt_inclusive, adapt_adapt_sampling]
  | none =>
    cases hc : bt_search s.cold k with
    | none =>
      refine ⟨?_, ?_, ?_, ?_, ?_, ?_, ?_⟩ <;>
        simp only [hc_search, adapt_hot, adapt_cold, hh, hc] <;>
        simp only [adapt_max_key, adapt_decay_alpha, adapt_hot_threshold,
          adapt_max_hot_fraction, adapt_inclusive, adapt_adapt_sampling]
    | some v =>
      refine ⟨?_, ?_, ?_, ?_, ?_, ?_, ?_⟩ <;>
        simp only [hc_search, adapt_hot, adapt_cold, hh, hc] <;> split_ifs <;>
        simp only [maybe_promote_cold, maybe_promote_max_key, maybe_promote_params,
          maybe_promote_hit_score, maybe_promote_stats, adapt_cold, adapt_max_key,
          adapt_decay_alpha, adapt_hot_threshold, adapt_max_hot_fraction, adapt_inclusive,
          adapt_adapt_sampling]

theorem hc_search_hot_cases {V : Type} (s : HCIndex V) (k : Int) (u : ℚ) (hv cv : Nat) :
    (hc_search s k u hv cv).state.hot = s.hot ∨
      ∃ w, bt_search s.hot k = none ∧ bt_search s.cold k = some w ∧ (0 ≤ k ∧ k ≤ s.max_key) ∧
        (bt_count_keys s.hot : ℚ) < s.params.max_hot_fraction * ((s.max_key + 1 : Int) : ℚ) ∧
        (hc_search s k u hv cv).state.hot = bt_insert s.hot k w := by
  cases hh : bt_search s.hot k with
  | some v =>
    left
    simp only [hc_search, adapt_hot, hh]
    split_ifs <;> simp only [adapt_hot]
  | none =>
    cases hc : bt_search s.cold k with
    | none =>
      left
      simp only [hc_search, adapt_hot, adapt_cold, hh, hc]
    | some v =>
      simp only [hc_search, adapt_hot, adapt_cold, adapt_hit_score, adapt_stats, adapt_max_key,
        adapt_decay_alpha, adapt_hot_threshold, adapt_max_hot_fraction, adapt_inclusive,
        scoreGet_mk, hh, hc]
      split_ifs with h₁ h₂
      · rcases maybe_promote_hot_cases _ k u with e | ⟨w, hh', hc', hcap', e⟩
        · left
          rw [e]
        · right
          dsimp only at hc' hcap' e
          simp only [adapt_max_hot_fraction, adapt_max_key] at hcap'
          rw [hc] at hc'
          exact ⟨w, trivial, hc', h₁, hcap', e⟩
      · left; rfl
      · left; rfl

theorem hc_search_rate_cases {V : Type} (s : HCIndex V) (k : Int) (u : ℚ) (hv cv : Nat) :
    (hc_search s k u hv cv).state.params.sampling_rate = s.params.sampling_rate ∨
      ∃ x, (hc_search s k u hv cv).state.params.sampling_rate = clamp01 x := by
  have base := adapt_rate_cases { s with stats := { s.stats with queries := s.stats.queries + 1 } }
  cases hh : bt_search s.hot k with
  | some v =>
    simp only [hc_search, adapt_hot, hh]
    split_ifs <;> exact base
  | none =>
    cases hc : bt_search s.cold k with
    | none =>
      simp only [hc_search, adapt_hot, adapt_cold, hh, hc]
      exact base
    | some v =>
      simp only [hc_search, adapt_hot, adapt_cold, hh, hc]
      split_ifs <;> simp only [maybe_promote_params] <;> exact base

theorem hc_search_hit_spec {V : Type} (s : HCIndex V) (k : Int) (u : ℚ) (hv cv : Nat)
    (hdom : 0 ≤ k ∧ k ≤ s.max_key)
    (hmem : (bt_search s.hot k).isSome ∨ (bt_search s.cold k).isSome) :
    scoreGet (hc_search s k u hv cv).state k = s.params.decay_alpha * scoreGet s k + 1 ∧
      ((bt_search (hc_search s k u hv cv).state.hot k).isSome ∨
        (bt_search (hc_search s k u hv cv).state.cold k).isSome) := by
  cases hh : bt_search s.hot k with
  | some v =>
    constructor
    · simp only [scoreGet, hc_search, adapt_hot, adapt_hit_score, adapt_max_key,
        adapt_decay_alpha, hh]
      rw [if_pos hdom]
      simp only [bt_search_bt_insert_self, Option.getD_some]
    · left
      rcases hc_search_hot_cases s k u hv cv with e | ⟨w, hn, _, _, _, _⟩
      · rw [e, hh]
        rfl
      · rw [hn] at hh
        cases hh
  | none =>
    cases hc : bt_search s.cold k with
    | none =>
      rw [hh, hc] at hmem
      simp at hmem
    | some v =>
      constructor
      · simp only [scoreGet, hc_search, adapt_hot, adapt_cold, adapt_hit_score, adapt_stats,
          adapt_max_key, adapt_decay_alpha, adapt_hot_threshold, hh, hc]
        rw [if_pos hdom]
        split_ifs with hth
        · simp only [scoreGet, maybe_promote_hit_score, bt_search_bt_insert_self,
            Option.getD_some]
        · simp only [bt_search_bt_insert_self, Option.getD_some]
      · right
        rw [(hc_search_basic s k u hv cv).1, hc]
        rfl

theorem hc_search_promotes {V : Type} (s : HCIndex V) (k : Int) (u : ℚ) (hv cv : Nat) (v : V)
    (hAtrig : s.params.adapt_sampling = false ∨
      ((s.stats.queries : Int) + 1) - (s.last_q_for_adapt : Int) < 5000)
    (hD : s.params.sampling_rate = 1) (hinc : s.params.inclusive = true)
    (hcap : (bt_count_keys s.hot : ℚ) < s.params.max_hot_fraction * ((s.max_key + 1 : Int) : ℚ))
    (hdom : 0 ≤ k ∧ k ≤ s.max_key)
    (hh : bt_search s.hot k = none) (hc : bt_search s.cold k = some v)
    (hth : s.params.hot_threshold ≤ s.params.decay_alpha * scoreGet s k + 1)
    (hu0 : 0 ≤ u) (hu1 : u < 1) :
    bt_search (hc_search s k u hv cv).state.hot k = some v ∧
      (hc_search s k u hv cv).payload = some v := by
  have hA : hc_maybe_adapt_sampling
      { s with stats := { s.stats with queries := s.stats.queries + 1 } } =
      { s with stats := { s.stats with queries := s.stats.queries + 1 } } := by
    apply adapt_of_not_trigger
    rcases hAtrig with h | h
    · exact Or.inl h
    · right
      push_cast
      exact h
  have hth' : s.params.hot_threshold ≤
      s.params.decay_alpha * (bt_search s.hit_score k).getD 0 + 1 := hth
  have hclamp : clamp01 s.params.sampling_rate = 1 := by
    rw [hD]
    norm_num [clamp01]
  have key : ∀ t : HCIndex V, t.hot = s.hot → t.cold = s.cold → t.max_key = s.max_key →
      t.params = s.params → bt_search (maybe_promote t k u).hot k = some v := by
    intro t e1 e2 e3 e4
    rw [maybe_promote_success t k u v (by rw [e4]; exact hinc)
      (by rw [e4, hclamp]; exact hu1.le)
      (by rw [e1, e3, e4]; exact hcap)
      (by rw [e1]; exact hh) (by rw [e2]; exact hc)]
    rw [e1]
    exact bt_search_bt_insert_self s.hot k v
  constructor
  · simp only [hc_search, hA, hh, hc, scoreGet_mk]
    rw [if_pos hdom, if_pos hth']
    exact key _ rfl rfl rfl rfl
  · simp only [hc_search, hA, hh, hc]

/-! ### Frame facts for insertion and range scan, and per-step constancy -/

theorem hc_insert_out_of_range {V : Type} (s : HCIndex V) (k : Int) (v : V)
    (h : k < 0 ∨ s.max_key < k) : hc_insert s k v = (s, HCOutcome.outOfRange) := by
  simp [hc_insert, h]

theorem hc_insert_ok {V : Type} (s : HCIndex V) (k : Int) (v : V)
    (h : ¬(k < 0 ∨ s.max_key < k)) :
    hc_insert s k v = ({ s with cold := bt_insert s.cold k v }, HCOutcome.okInsert) := by
  rw [hc_insert, if_neg h]

theorem hc_range_search_state {V : Type} (s : HCIndex V) (lo hi : Int) (hv cv : Nat) :
    (hc_range_search s lo hi hv cv).1 =
      { s with stats := { s.stats with
          hot_node_visits := s.stats.hot_node_visits + hv
          cold_node_visits := s.stats.cold_node_visits + cv } } :=
  rfl

theorem hcStep_const {V : Type} (s : HCIndex V) (op : HCOp V) :
    (hcStep s op).max_key = s.max_key ∧
      (hcStep s op).params.max_hot_fraction = s.params.max_hot_fraction ∧
      (hcStep s op).params.decay_alpha = s.params.decay_alpha ∧
      (hcStep s op).params.hot_threshold = s.params.hot_threshold ∧
      (hcStep s op).params.inclusive = s.params.inclusive ∧
      (hcStep s op).params.adapt_sampling = s.params.adapt_sampling := by
  cases op with
  | insert k v =>
    by_cases h : k < 0 ∨ s.max_key < k
    · simp [hcStep, hc_insert_out_of_range s k v h]
    · simp [hcStep, hc_insert_ok s k v h]
  | search k u hv cv =>
    obtain ⟨_, h1, h2, h3, _, h4, h5⟩ := hc_search_basic s k u hv cv
    exact ⟨h1, (hc_search_basic s k u hv cv).2.2.2.2.1, h2, h3, h4, h5⟩
  | range lo hi hv cv => exact ⟨rfl, rfl, rfl, rfl, rfl, rfl⟩
  | getStats => exact ⟨rfl, rfl, rfl, rfl, rfl, rfl⟩

theorem hcRun_const {V : Type} (s : HCIndex V) (ops : List (HCOp V)) :
    (hcRun s ops).max_key = s.max_key ∧
      (hcRun s ops).params.max_hot_fraction = s.params.max_hot_fraction ∧
      (hcRun s ops).params.decay_alpha = s.params.decay_alpha ∧
      (hcRun s ops).params.hot_threshold = s.params.hot_threshold ∧
      (hcRun s ops).params.inclusive = s.params.inclusive ∧
      (hcRun s ops).params.adapt_sampling = s.params.adapt_sampling := by
  induction ops generalizing s with
  | nil => exact ⟨rfl, rfl, rfl, rfl, rfl, rfl⟩
  | cons op ops ih =>
    obtain ⟨a1, a2, a3, a4, a5, a6⟩ := hcStep_const s op
    obtain ⟨b1, b2, b3, b4, b5, b6⟩ := ih (hcStep s op)
    exact ⟨b1.trans a1, b2.trans a2, b3.trans a3, b4.trans a4, b5.trans a5, b6.trans a6⟩

/-! ### The reachable-state invariant: inclusion, domain bound, capacity -/

theorem HCInv_create {V : Type} (mk : Int) (deg : Nat) (p : HCParams) :
    HCInv (hc_create V mk deg p) := by
  refine ⟨?_, ?_, Or.inl rfl⟩ <;> intro x hx <;> simp [hc_create, keysOf] at hx

theorem HCInv_step {V : Type} (s : HCIndex V) (op : HCOp V) (h : HCInv s) :
    HCInv (hcStep s op) := by
  obtain ⟨hsub, hdom, hcap⟩ := h
  cases op with
  | insert k v =>
    by_cases hk : k < 0 ∨ s.max_key < k
    · simpa [hcStep, hc_insert_out_of_range s k v hk] using ⟨hsub, hdom, hcap⟩
    · push_neg at hk
      simp only [hcStep, hc_insert_ok s k v (by push_neg; exact hk)]
      refine ⟨?_, ?_, ?_⟩
      · intro x hx
        exact (mem_keysOf_bt_insert s.cold k x v).mpr (Or.inr (hsub x hx))
      · intro x hx
        rcases (mem_keysOf_bt_insert s.cold k x v).mp hx with rfl | hx'
        · exact hk
        · exact hdom x hx'
      · exact hcap
  | search k u hv cv =>
    simp only [hcStep]
    obtain ⟨ecold, emk, _, _, efrac, _, _⟩ := hc_search_basic s k u hv cv
    rcases hc_search_hot_cases s k u hv cv with e | ⟨w, hhn, hcs, hdomk, hcapk, e⟩
    · refine ⟨?_, ?_, ?_⟩
      · intro x hx
        rw [e] at hx
        rw [ecold]
        exact hsub x hx
      · intro x hx
        rw [ecold] at hx
        rw [emk]
        exact hdom x hx
      · rw [e, emk, efrac]
        exact hcap
    · refine ⟨?_, ?_, ?_⟩
      · intro x hx
        rw [e] at hx
        rw [ecold]
        rcases (mem_keysOf_bt_insert s.hot k x w).mp hx with rfl | hx'
        · exact mem_keysOf_of_bt_search s.cold x w hcs
        · exact hsub x hx'
      · intro x hx
        rw [ecold] at hx
        rw [emk]
        exact hdom x hx
      · right
        rw [e, emk, efrac]
        have hle := bt_count_keys_bt_insert_le s.hot k w
        have : (bt_count_keys (bt_insert s.hot k w) : ℚ) ≤ (bt_count_keys s.hot : ℚ) + 1 := by
          exact_mod_cast hle
        linarith
  | range lo hi hv cv => exact ⟨hsub, hdom, hcap⟩
  | getStats => exact ⟨hsub, hdom, hcap⟩

theorem HCInv_run {V : Type} (s : HCIndex V) (ops : List (HCOp V)) (h : HCInv s) :
    HCInv (hcRun s ops) := by
  induction ops generalizing s with
  | nil => exact h
  | cons op ops ih => exact ih (hcStep s op) (HCInv_step s op h)

/-! ### The sampling-rate bounds invariant -/

theorem rate_bounds_step {V : Type} (s : HCIndex V) (op : HCOp V)
    (h : 0 ≤ s.params.sampling_rate ∧ s.params.sampling_rate ≤ 1) :
    0 ≤ (hcStep s op).params.sampling_rate ∧ (hcStep s op).params.sampling_rate ≤ 1 := by
  cases op with
  | insert k v =>
    by_cases hk : k < 0 ∨ s.max_key < k
    · simpa [hcStep, hc_insert_out_of_range s k v hk] using h
    · simpa [hcStep, hc_insert_ok s k v hk] using h
  | search k u hv cv =>
    simp only [hcStep]
    rcases hc_search_rate_cases s k u hv cv with e | ⟨x, e⟩
    · rw [e]
      exact h
    · rw [e]
      exact ⟨clamp01_nonneg x, clamp01_le_one x⟩
  | range lo hi hv cv => exact h
  | getStats => exact h

theorem rate_bounds_run {V : Type} (s : HCIndex V) (ops : List (HCOp V))
    (h : 0 ≤ s.params.sampling_rate ∧ s.params.sampling_rate ≤ 1) :
    0 ≤ (hcRun s ops).params.sampling_rate ∧ (hcRun s ops).params.sampling_rate ≤ 1 := by
  induction ops generalizing s with
  | nil => exact h
  | cons op ops ih => exact ih (hcStep s op) (rate_bounds_step s op h)

/-! ### The deduplicating range scan -/

theorem rangeStep_seen_mono {V : Type} (mk x : Int) (p : List Int × List (Int × V))
    (kv : Int × V) (h : x ∈ p.1) : x ∈ (rangeStep mk p kv).1 := by
  unfold rangeStep
  split_ifs <;> simp [h]

theorem foldl_rangeStep_seen_mono {V : Type} (mk x : Int) (l : List (Int × V))
    (p : List Int × List (Int × V)) (h : x ∈ p.1) :
    x ∈ (List.foldl (rangeStep mk) p l).1 := by
  induction l generalizing p with
  | nil => exact h
  | cons kv l ih => exact ih (rangeStep mk p kv) (rangeStep_seen_mono mk x p kv h)

theorem foldl_rangeStep_seen_of_mem {V : Type} (mk : Int) (l : List (Int × V))
    (p : List Int × List (Int × V)) (kv : Int × V) (hmem : kv ∈ l)
    (h₀ : 0 ≤ kv.1) (h₁ : kv.1 ≤ mk) :
    kv.1 ∈ (List.foldl (rangeStep mk) p l).1 := by
  induction l generalizing p with
  | nil => cases hmem
  | cons a l ih =>
    rcases List.mem_cons.mp hmem with rfl | htl
    · refine foldl_rangeStep_seen_mono mk kv.1 l (rangeStep mk p kv) ?_
      unfold rangeStep
      split_ifs with ha hb
      · exact absurd ha (by push_neg; omega)
      · exact hb
      · exact List.mem_cons_self _ _
    · exact ih (rangeStep mk p a) htl

theorem rangeStep_inv {V : Type} (mk : Int) (p : List Int × List (Int × V)) (kv : Int × V)
    (hiff : ∀ x, x ∈ p.1 ↔ x ∈ keysOf p.2) (hnd : (keysOf p.2).Nodup) :
    (∀ x, x ∈ (rangeStep mk p kv).1 ↔ x ∈ keysOf (rangeStep mk p kv).2) ∧
      (keysOf (rangeStep mk p kv).2).Nodup := by
  have keys_app : keysOf (p.2 ++ [kv]) = keysOf p.2 ++ [kv.1] := by
    simp [keysOf]
  unfold rangeStep
  split_ifs with ha hb
  · exact ⟨hiff, hnd⟩
  · exact ⟨hiff, hnd⟩
  · dsimp only
    constructor
    · intro x
      rw [keys_app, List.mem_append, List.mem_singleton, List.mem_cons, ← hiff x]
      tauto
    · rw [keys_app, List.nodup_append]
      refine ⟨hnd, List.nodup_singleton _, ?_⟩
      intro x hx hx1
      rw [List.mem_singleton] at hx1
      exact hb (hx1 ▸ (hiff x).mpr hx)

theorem foldl_rangeStep_inv {V : Type} (mk : Int) (l : List (Int × V))
    (p : List Int × List (Int × V))
    (hiff : ∀ x, x ∈ p.1 ↔ x ∈ keysOf p.2) (hnd : (keysOf p.2).Nodup) :
    (∀ x, x ∈ (List.foldl (rangeStep mk) p l).1 ↔
        x ∈ keysOf (List.foldl (rangeStep mk) p l).2) ∧
      (keysOf (List.foldl (rangeStep mk) p l).2).Nodup := by
  induction l generalizing p with
  | nil => exact ⟨hiff, hnd⟩
  | cons kv l ih =>
    obtain ⟨h1, h2⟩ := rangeStep_inv mk p kv hiff hnd
    exact ih (rangeStep mk p kv) h1 h2

theorem hc_range_emit_spec {V : Type} (s : HCIndex V) (lo hi : Int) :
    (∀ x, List.count x (keysOf (hc_range_emit s lo hi)) ≤ 1) ∧
      ∀ k, k ∈ keysOf s.cold → lo ≤ k → k ≤ hi → 0 ≤ k → k ≤ s.max_key →
        List.count k (keysOf (hc_range_emit s lo hi)) = 1 := by
  have hiff0 : ∀ x : Int, x ∈ (([], []) : List Int × List (Int × V)).1 ↔
      x ∈ keysOf (([], []) : List Int × List (Int × V)).2 := by
    intro x
    simp [keysOf]
  have hnd0 : (keysOf (([], []) : List Int × List (Int × V)).2).Nodup := by
    simp [keysOf]
  obtain ⟨hiff1, hnd1⟩ := foldl_rangeStep_inv s.max_key (bt_range s.hot lo hi) ([], []) hiff0 hnd0
  obtain ⟨hiff2, hnd2⟩ :=
    foldl_rangeStep_inv s.max_key (bt_range s.cold lo hi)
      (List.foldl (rangeStep s.max_key) ([], []) (bt_range s.hot lo hi)) hiff1 hnd1
  constructor
  · intro x
    exact List.nodup_iff_count_le_one.mp hnd2 x
  · intro k hk hlo hhi h0 hmk
    obtain ⟨⟨k', v⟩, hmem, hkeq⟩ := List.mem_map.mp hk
    simp only at hkeq
    subst hkeq
    have hrange : (k', v) ∈ bt_range s.cold lo hi := by
      refine List.mem_filter.mpr ⟨hmem, ?_⟩
      simp [hlo, hhi]
    have hseen : k' ∈ (List.foldl (rangeStep s.max_key)
        (List.foldl (rangeStep s.max_key) ([], []) (bt_range s.hot lo hi))
        (bt_range s.cold lo hi)).1 :=
      foldl_rangeStep_seen_of_mem s.max_key (bt_range s.cold lo hi) _ (k', v) hrange h0 hmk
    exact List.count_eq_one_of_mem hnd2 ((hiff2 k').mp hseen)

theorem hcStep_hot_grow {V : Type} (s : HCIndex V) (op : HCOp V) (x : Int)
    (h : x ∈ keysOf s.hot) : x ∈ keysOf (hcStep s op).hot := by
  cases op with
  | insert k v =>
    by_cases hk : k < 0 ∨ s.max_key < k
    · simpa [hcStep, hc_insert_out_of_range s k v hk] using h
    · simpa [hcStep, hc_insert_ok s k v hk] using h
  | search k u hv cv =>
    simp only [hcStep]
    rcases hc_search_hot_cases s k u hv cv with e | ⟨w, _, _, _, _, e⟩
    · rw [e]
      exact h
    · rw [e]
      exact (mem_keysOf_bt_insert s.hot k x w).mpr (Or.inr h)
  | range lo hi hv cv => exact h
  | getStats => exact h

/-! ### Iterated hits on a fixed key -/

theorem searchIter_inv {V : Type} (s : HCIndex V) (k : Int) (us : Nat → ℚ)
    (hvs cvs : Nat → Nat) (hdom : 0 ≤ k ∧ k ≤ s.max_key)
    (hmem : (bt_search s.hot k).isSome ∨ (bt_search s.cold k).isSome) (n : Nat) :
    (searchIter s k us hvs cvs n).max_key = s.max_key ∧
      (searchIter s k us hvs cvs n).params.decay_alpha = s.params.decay_alpha ∧
      ((bt_search (searchIter s k us hvs cvs n).hot k).isSome ∨
        (bt_search (searchIter s k us hvs cvs n).cold k).isSome) := by
  induction n with
  | zero => exact ⟨rfl, rfl, hmem⟩
  | succ n ih =>
    obtain ⟨emk, eα, em⟩ := ih
    obtain ⟨e1, e2, e3, _, _, _, _⟩ := hc_search_basic (searchIter s k us hvs cvs n) k (us n)
      (hvs n) (cvs n)
    refine ⟨e2.trans emk, e3.trans eα, ?_⟩
    exact (hc_search_hit_spec (searchIter s k us hvs cvs n) k (us n) (hvs n) (cvs n)
      ⟨hdom.1, emk ▸ hdom.2⟩ em).2

theorem searchIter_score {V : Type} (s : HCIndex V) (k : Int) (us : Nat → ℚ)
    (hvs cvs : Nat → Nat) (hdom : 0 ≤ k ∧ k ≤ s.max_key)
    (hmem : (bt_search s.hot k).isSome ∨ (bt_search s.cold k).isSome)
    (hscore0 : scoreGet s k = 0) (n : Nat) :
    scoreGet (searchIter s k us hvs cvs n) k =
      ∑ i in Finset.range n, s.params.decay_alpha ^ i := by
  induction n with
  | zero => simpa using hscore0
  | succ n ih =>
    obtain ⟨emk, eα, em⟩ := searchIter_inv s k us hvs cvs hdom hmem n
    have step := (hc_search_hit_spec (searchIter s k us hvs cvs n) k (us n) (hvs n) (cvs n)
      ⟨hdom.1, emk ▸ hdom.2⟩ em).1
    calc scoreGet (searchIter s k us hvs cvs (n + 1)) k
        = (searchIter s k us hvs cvs n).params.decay_alpha *
            scoreGet (searchIter s k us hvs cvs n) k + 1 := step
      _ = s.params.decay_alpha * ∑ i in Finset.range n, s.params.decay_alpha ^ i + 1 := by
          rw [eα, ih]
      _ = ∑ i in Finset.range (n + 1), s.params.decay_alpha ^ i := geom_sum_succ.symm

theorem bt_search_some_of_mem {V : Type} (t : List (Int × V)) (k : Int)
    (h : k ∈ keysOf t) : ∃ w, bt_search t k = some w := by
  induction t with
  | nil => simp [keysOf] at h
  | cons hd tl ih =>
    obtain ⟨k₁, v₁⟩ := hd
    by_cases e : k = k₁
    · exact ⟨v₁, by simp [bt_search, e]⟩
    · simp only [keysOf, List.map_cons, List.mem_cons] at h
      rcases h with h | h
      · exact absurd h e
      · obtain ⟨w, hw⟩ := ih h
        exact ⟨w, by simp [bt_search, e, hw]⟩

/-! ### Claim theorems -/

/-- C9: a range scan changes none of the query/hit/miss counters, the score
array, the two tiers, the sampling rate or the adapter memory; it only adds
the two reported visit counts to `hot_node_visits` and `cold_node_visits`.
In particular it triggers no promotion and no adaptation and does not
advance the query count against which the adapter window is measured. -/
theorem claim_C9_range_frame {V : Type} (s : HCIndex V) (lo hi : Int) (hv cv : Nat) :
    (hc_range_search s lo hi hv cv).1.hot = s.hot ∧
      (hc_range_search s lo hi hv cv).1.cold = s.cold ∧
      (hc_range_search s lo hi hv cv).1.hit_score = s.hit_score ∧
      (hc_range_search s lo hi hv cv).1.params = s.params ∧
      (hc_range_search s lo hi hv cv).1.stats.queries = s.stats.queries ∧
      (hc_range_search s lo hi hv cv).1.stats.hot_hits = s.stats.hot_hits ∧
      (hc_range_search s lo hi hv cv).1.stats.cold_hits = s.stats.cold_hits ∧
      (hc_range_search s lo hi hv cv).1.stats.not_found = s.stats.not_found ∧
      (hc_range_search s lo hi hv cv).1.last_q_for_adapt = s.last_q_for_adapt ∧
      (hc_range_search s lo hi hv cv).1.last_cost = s.last_cost ∧
      (hc_range_search s lo hi hv cv).1.last_D = s.last_D ∧
      (hc_range_search s lo hi hv cv).1.stats.hot_node_visits = s.stats.hot_node_visits + hv ∧
      (hc_range_search s lo hi hv cv).1.stats.cold_node_visits = s.stats.cold_node_visits + cv :=
  ⟨rfl, rfl, rfl, rfl, rfl, rfl, rfl, rfl, rfl, rfl, rfl, rfl, rfl⟩

/-- C10: the promotion controller mutates at most the hot tier — a single
insert of the key with the payload fetched from cold, and only when the key
is absent from hot — and leaves the cold tier, the score array, the
parameters, every stats counter (so the node visits of its internal hot
probe and cold fetch are never added to the cumulative visit counters and
never feed the adapter cost signal) and the adapter memory unchanged. -/
theorem claim_C10_promote_frame {V : Type} (s : HCIndex V) (k : Int) (u : ℚ) :
    (maybe_promote s k u).cold = s.cold ∧
      (maybe_promote s k u).hit_score = s.hit_score ∧
      (maybe_promote s k u).params = s.params ∧
      (maybe_promote s k u).stats = s.stats ∧
      (maybe_promote s k u).max_key = s.max_key ∧
      (maybe_promote s k u).last_q_for_adapt = s.last_q_for_adapt ∧
      (maybe_promote s k u).last_cost = s.last_cost ∧
      (maybe_promote s k u).last_D = s.last_D ∧
      ((maybe_promote s k u).hot = s.hot ∨
        ∃ v, bt_search s.hot k = none ∧ bt_search s.cold k = some v ∧
          (maybe_promote s k u).hot = bt_insert s.hot k v) := by
  obtain ⟨e1, e2, e3, e4, e5, e6, e7, e8⟩ := maybe_promote_frame s k u
  refine ⟨e1, e3, e4, e5, e2, e6, e7, e8, ?_⟩
  rcases maybe_promote_hot_cases s k u with e | ⟨v, hh, hc, _, e⟩
  · exact Or.inl e
  · exact Or.inr ⟨v, hh, hc, e⟩

/-- C1 (amended): in every state reachable from `hc_create` by any
sequence of facade calls, every key present in the hot tier is also present
in the cold tier.  (The payloads need not be identical: a later `hc_insert`
may overwrite the cold payload while the stale copy stays hot — see the
counterexample.) -/
theorem claim_C1_inclusion {V : Type} (mk : Int) (deg : Nat) (p : HCParams)
    (ops : List (HCOp V)) (k : Int) (v : V)
    (h : bt_search (hcRun (hc_create V mk deg p) ops).hot k = some v) :
    ∃ w, bt_search (hcRun (hc_create V mk deg p) ops).cold k = some w := by
  have hinv := HCInv_run (hc_create V mk deg p) ops (HCInv_create mk deg p)
  exact bt_search_some_of_mem _ k (hinv.1 k (mem_keysOf_of_bt_search _ k v h))

/-- C1 counterexample: insert key 0 with payload 1, search it once (its
score 1 meets the threshold, so it is promoted with its payload), then
re-insert key 0 with payload 2.  The state is reachable, key 0 is in both
tiers, but the hot payload 1 differs from the cold payload 2 — so the
inclusion invariant as stated (identical payloads) is false. -/
theorem claim_C1_counterexample :
    bt_search c1state.hot 0 = some 1 ∧ bt_search c1state.cold 0 = some 2 ∧
      (1 : Nat) ≠ 2 := by
  refine ⟨?_, ?_, by decide⟩ <;>
    norm_num [c1state, c1ops, c1params, hcRun, hcStep, hc_create, hc_insert, hc_search,
      hc_maybe_adapt_sampling, maybe_promote, bt_insert, bt_search, bt_count_keys,
      scoreGet, clamp01]

/-- Witness for C1: a concrete reachable state with a hot key, at which the
amended theorem applies. -/
theorem claim_C1_inclusion_witness :
    bt_search (hcRun (hc_create Nat 9 4 c1params) c1wops).hot 0 = some 1 ∧
      ∃ w, bt_search (hcRun (hc_create Nat 9 4 c1params) c1wops).cold 0 = some w := by
  have h : bt_search (hcRun (hc_create Nat 9 4 c1params) c1wops).hot 0 = some 1 := by
    norm_num [c1wops, c1params, hcRun, hcStep, hc_create, hc_insert, hc_search,
      hc_maybe_adapt_sampling, maybe_promote, bt_insert, bt_search, bt_count_keys,
      scoreGet, clamp01]
  exact ⟨h, claim_C1_inclusion 9 4 c1params c1wops 0 1 h⟩

/-- C2 (amended): for any reachable state and any key outside
`[0, max_key]`, `hc_insert` reports OutOfRange and performs no mutation,
and `hc_search` leaves the hot tier, the cold tier and the score array
unchanged — but the search is NOT reported as OutOfRange: it returns absent
and is counted as NotFound (the `not_found` counter is incremented). -/
theorem claim_C2_domain_guard {V : Type} (mk : Int) (deg : Nat) (p : HCParams)
    (ops : List (HCOp V)) (s : HCIndex V) (k : Int) (v : V) (u : ℚ) (hv cv : Nat)
    (hs : s = hcRun (hc_create V mk deg p) ops)
    (hk : k < 0 ∨ s.max_key < k) :
    hc_insert s k v = (s, HCOutcome.outOfRange) ∧
      (hc_search s k u hv cv).state.hot = s.hot ∧
      (hc_search s k u hv cv).state.cold = s.cold ∧
      (hc_search s k u hv cv).state.hit_score = s.hit_score ∧
      (hc_search s k u hv cv).payload = none ∧
      (hc_search s k u hv cv).outcome = HCOutcome.notFound ∧
      (hc_search s k u hv cv).state.stats.not_found = s.stats.not_found + 1 := by
  have hinv : HCInv s := hs ▸ HCInv_run (hc_create V mk deg p) ops (HCInv_create mk deg p)
  have hcnone : bt_search s.cold k = none := by
    apply bt_search_eq_none_of_not_mem
    intro hmem
    obtain ⟨h0, h1⟩ := hinv.2.1 k hmem
    rcases hk with hk | hk <;> omega
  have hhnone : bt_search s.hot k = none := by
    apply bt_search_eq_none_of_not_mem
    intro hmem
    obtain ⟨h0, h1⟩ := hinv.2.1 k (hinv.1 k hmem)
    rcases hk with hk | hk <;> omega
  obtain ⟨m1, m2, m3, m4, m5, m6, m7⟩ := hc_search_miss_spec s k u hv cv hhnone hcnone
  exact ⟨hc_insert_out_of_range s k v hk, m3, m4, m5, m1, m2, m6⟩

/-- C2 counterexample: on a freshly created index with `max_key = 4`,
searching the out-of-range key 7 is reported as NotFound (the `not_found`
counter is incremented and the absent payload is returned), not as
OutOfRange — refuting the claim that the search is reported as
OutOfRange. -/
theorem claim_C2_counterexample :
    (hc_create Nat 4 4 c2params).max_key < 7 ∧
      (hc_search (hc_create Nat 4 4 c2params) 7 0 0 0).outcome = HCOutcome.notFound ∧
      HCOutcome.notFound ≠ HCOutcome.outOfRange ∧
      (hc_search (hc_create Nat 4 4 c2params) 7 0 0 0).state.stats.not_found =
        (hc_create Nat 4 4 c2params).stats.not_found + 1 ∧
      (hc_search (hc_create Nat 4 4 c2params) 7 0 0 0).payload = none := by
  refine ⟨?_, ?_, by decide, ?_, ?_⟩ <;>
    norm_num [c2params, hc_create, hc_search, hc_maybe_adapt_sampling, maybe_promote,
      bt_insert, bt_search, bt_count_keys, scoreGet, clamp01]

/-- Witness for C2: the amended theorem applied at a concrete reachable
state (the fresh index) and out-of-range key 7. -/
theorem claim_C2_domain_guard_witness :
    ((7 : Int) < 0 ∨ (hc_create Nat 4 4 c2params).max_key < 7) ∧
      (hc_insert (hc_create Nat 4 4 c2params) 7 99 =
        (hc_create Nat 4 4 c2params, HCOutcome.outOfRange) ∧
      (hc_search (hc_create Nat 4 4 c2params) 7 0 0 0).state.hot =
        (hc_create Nat 4 4 c2params).hot ∧
      (hc_search (hc_create Nat 4 4 c2params) 7 0 0 0).state.cold =
        (hc_create Nat 4 4 c2params).cold ∧
      (hc_search (hc_create Nat 4 4 c2params) 7 0 0 0).state.hit_score =
        (hc_create Nat 4 4 c2params).hit_score ∧
      (hc_search (hc_create Nat 4 4 c2params) 7 0 0 0).payload = none ∧
      (hc_search (hc_create Nat 4 4 c2params) 7 0 0 0).outcome = HCOutcome.notFound ∧
      (hc_search (hc_create Nat 4 4 c2params) 7 0 0 0).state.stats.not_found =
        (hc_create Nat 4 4 c2params).stats.not_found + 1) := by
  have hk : (7 : Int) < 0 ∨ (hc_create Nat 4 4 c2params).max_key < 7 := by
    norm_num [hc_create]
  exact ⟨hk, claim_C2_domain_guard 4 4 c2params [] (hc_create Nat 4 4 c2params) 7 99 0 0 0
    rfl hk⟩

/-- C3 (amended): in every reachable state with a nonnegative
`max_hot_fraction` and `max_key`, the hot tier holds at most
`⌈max_hot_fraction × (max_key + 1)⌉` keys — the true bound: since the
capacity check refuses only when `|hot| ≥ max_hot_fraction × (max_key+1)`,
a promotion performed just below a fractional bound may leave `|hot|`
strictly above `max_hot_fraction × (max_key+1)` itself (see the
counterexample).  Moreover, in ANY state whose hot-key count has reached
`max_hot_fraction × (max_key+1)`, `maybe_promote` inserts nothing (the
state is returned unchanged, whatever the key and the draw), and no step
ever removes a key from the hot tier. -/
theorem claim_C3_capacity {V : Type} (mk : Int) (deg : Nat) (p : HCParams)
    (ops : List (HCOp V))
    (hfrac : 0 ≤ p.max_hot_fraction) (hmk : 0 ≤ mk) :
    ((bt_count_keys (hcRun (hc_create V mk deg p) ops).hot : Int) ≤
        ⌈p.max_hot_fraction * ((mk + 1 : Int) : ℚ)⌉) ∧
      (∀ s : HCIndex V, ∀ k : Int, ∀ u : ℚ,
        s.params.max_hot_fraction * ((s.max_key + 1 : Int) : ℚ) ≤ (bt_count_keys s.hot : ℚ) →
          maybe_promote s k u = s) ∧
      (∀ op : HCOp V, ∀ x : Int, x ∈ keysOf (hcRun (hc_create V mk deg p) ops).hot →
        x ∈ keysOf (hcStep (hcRun (hc_create V mk deg p) ops) op).hot) := by
  refine ⟨?_, fun s k u h => maybe_promote_eq_of_capacity s k u h,
    fun op x h => hcStep_hot_grow _ op x h⟩
  have hinv := HCInv_run (hc_create V mk deg p) ops (HCInv_create mk deg p)
  obtain ⟨emk, efrac, _, _, _, _⟩ := hcRun_const (hc_create V mk deg p) ops
  have hmkq : (0 : ℚ) ≤ (mk : ℚ) := by exact_mod_cast hmk
  have hnn : (0 : ℚ) ≤ p.max_hot_fraction * ((mk + 1 : Int) : ℚ) := by
    apply mul_nonneg hfrac
    push_cast
    linarith
  rcases hinv.2.2 with h0 | hlt
  · rw [h0]
    simpa using Int.ceil_nonneg hnn
  · rw [emk, efrac] at hlt
    have h2 : (bt_count_keys (hcRun (hc_create V mk deg p) ops).hot : Int) - 1 <
        ⌈p.max_hot_fraction * ((mk + 1 : Int) : ℚ)⌉ := by
      rw [Int.lt_ceil]
      push_cast
      push_cast at hlt
      exact hlt
    omega

/-- C3 counterexample: with `max_key = 4` and `max_hot_fraction = 1/2` the
claimed bound is `1/2 × 5 = 2.5`.  After three inserts and three searches
(each promoting, since the capacity check only refuses at `|hot| ≥ 2.5`),
the reachable state holds 3 hot keys, and `3 ≤ 2.5` is false — so the hot
tier does exceed `max_hot_fraction × (max_key + 1)`. -/
theorem claim_C3_counterexample :
    bt_count_keys c3state.hot = 3 ∧
      ¬((bt_count_keys c3state.hot : ℚ) ≤
        c3params.max_hot_fraction * ((4 + 1 : Int) : ℚ)) := by
  have h3 : bt_count_keys c3state.hot = 3 := by
    norm_num [c3state, c3ops, c3params, hcRun, hcStep, hc_create, hc_insert, hc_search,
      hc_maybe_adapt_sampling, maybe_promote, bt_insert, bt_search, bt_count_keys,
      scoreGet, clamp01]
  refine ⟨h3, ?_⟩
  rw [h3]
  norm_num [c3params]

/-- Witness for C3: the amended capacity bound applied at the concrete
counterexample run, where it is tight: `|hot| = 3 = ⌈2.5⌉`. -/
theorem claim_C3_capacity_witness :
    (0 : ℚ) ≤ c3params.max_hot_fraction ∧ (0 : Int) ≤ 4 ∧
      (((bt_count_keys (hcRun (hc_create Nat 4 4 c3params) c3ops).hot : Int) ≤
          ⌈c3params.max_hot_fraction * ((4 + 1 : Int) : ℚ)⌉) ∧
        (∀ s : HCIndex Nat, ∀ k : Int, ∀ u : ℚ,
          s.params.max_hot_fraction * ((s.max_key + 1 : Int) : ℚ) ≤ (bt_count_keys s.hot : ℚ) →
            maybe_promote s k u = s) ∧
        (∀ op : HCOp Nat, ∀ x : Int,
          x ∈ keysOf (hcRun (hc_create Nat 4 4 c3params) c3ops).hot →
            x ∈ keysOf (hcStep (hcRun (hc_create Nat 4 4 c3params) c3ops) op).hot)) := by
  refine ⟨by norm_num [c3params], by norm_num, ?_⟩
  exact claim_C3_capacity 4 4 c3params c3ops (by norm_num [c3params]) (by norm_num)

/-- C5: for every interval `[lo, hi]`, the range scan hands the user
callback each key of `[lo, hi] ∩ [0, max_key]` present in the cold tier
exactly once — whether or not the key is also hot — and no key at all is
emitted twice. -/
theorem claim_C5_range_dedup {V : Type} (s : HCIndex V) (lo hi k : Int)
    (h : k ∈ keysOf s.cold ∧ lo ≤ k ∧ k ≤ hi ∧ 0 ≤ k ∧ k ≤ s.max_key) :
    List.count k (keysOf (hc_range_emit s lo hi)) = 1 ∧
      ∀ x, List.count x (keysOf (hc_range_emit s lo hi)) ≤ 1 := by
  obtain ⟨hle, hone⟩ := hc_range_emit_spec s lo hi
  exact ⟨hone k h.1 h.2.1 h.2.2.1 h.2.2.2.1 h.2.2.2.2, hle⟩

/-- Witness for C5: a state where key 1 is in both tiers; the scan over
`[0, 9]` emits it exactly once and emits no key twice. -/
theorem claim_C5_range_dedup_witness :
    ((1 : Int) ∈ keysOf c5state.cold ∧ (0 : Int) ≤ 1 ∧ (1 : Int) ≤ 9 ∧ (0 : Int) ≤ 1 ∧
        (1 : Int) ≤ c5state.max_key) ∧
      (List.count 1 (keysOf (hc_range_emit c5state 0 9)) = 1 ∧
        ∀ x, List.count x (keysOf (hc_range_emit c5state 0 9)) ≤ 1) := by
  have h : (1 : Int) ∈ keysOf c5state.cold ∧ (0 : Int) ≤ 1 ∧ (1 : Int) ≤ 9 ∧ (0 : Int) ≤ 1 ∧
      (1 : Int) ≤ c5state.max_key := by
    refine ⟨?_, by norm_num, by norm_num, by norm_num, by norm_num [c5state]⟩
    norm_num [c5state, keysOf]
  exact ⟨h, claim_C5_range_dedup c5state 0 9 1 h⟩

/-- C6: if the configured initial sampling rate lies in `[0, 1]`, then
after any sequence of facade calls (hence any number of adaptation cycles)
`params.sampling_rate` still lies in `[0, 1]`. -/
theorem claim_C6_adapter_bounds {V : Type} (mk : Int) (deg : Nat) (p : HCParams)
    (ops : List (HCOp V)) (h0 : 0 ≤ p.sampling_rate) (h1 : p.sampling_rate ≤ 1) :
    0 ≤ (hcRun (hc_create V mk deg p) ops).params.sampling_rate ∧
      (hcRun (hc_create V mk deg p) ops).params.sampling_rate ≤ 1 :=
  rate_bounds_run (hc_create V mk deg p) ops ⟨h0, h1⟩

/-- Witness for C6: a concrete run with adaptation enabled. -/
theorem claim_C6_adapter_bounds_witness :
    (0 : ℚ) ≤ c6params.sampling_rate ∧ c6params.sampling_rate ≤ 1 ∧
      (0 ≤ (hcRun (hc_create Nat 9 4 c6params) c6ops).params.sampling_rate ∧
        (hcRun (hc_create Nat 9 4 c6params) c6ops).params.sampling_rate ≤ 1) := by
  refine ⟨by norm_num [c6params], by norm_num [c6params], ?_⟩
  exact claim_C6_adapter_bounds 9 4 c6params c6ops (by norm_num [c6params])
    (by norm_num [c6params])

/-- C7: second-and-later adaptation bookkeeping and decision rule. -/
theorem claim_C7_adapter_rule {V : Type} (s : HCIndex V)
    (hen : s.params.adapt_sampling = true)
    (htrig : 5000 ≤ (s.stats.queries : Int) - (s.last_q_for_adapt : Int))
    (hfirst : s.last_q_for_adapt ≠ 0)
    (hmove : 1/1000000000 ≤ |s.params.sampling_rate - s.last_D|) :
    (hc_maybe_adapt_sampling s).last_D = s.params.sampling_rate ∧
      (hc_maybe_adapt_sampling s).last_cost =
        ((s.stats.hot_node_visits : ℚ) + (s.stats.cold_node_visits : ℚ)) /
          (s.stats.queries : ℚ) ∧
      (hc_maybe_adapt_sampling s).last_q_for_adapt = s.stats.queries ∧
      (hc_maybe_adapt_sampling s).params.sampling_rate =
        clamp01
          (if (((s.stats.hot_node_visits : ℚ) + (s.stats.cold_node_visits : ℚ)) /
                (s.stats.queries : ℚ) - s.last_cost) * (s.params.sampling_rate - s.last_D) < 0
           then s.params.sampling_rate +
              (1/20) * (if 0 < s.params.sampling_rate - s.last_D then 1 else -1)
           else if 0 < (((s.stats.hot_node_visits : ℚ) + (s.stats.cold_node_visits : ℚ)) /
                (s.stats.queries : ℚ) - s.last_cost) * (s.params.sampling_rate - s.last_D)
           then s.params.sampling_rate -
              (1/20) * (if 0 < s.params.sampling_rate - s.last_D then 1 else -1)
           else s.params.sampling_rate) := by
  have hqpos : 0 < s.stats.queries := by omega
  simp only [hc_maybe_adapt_sampling, hen, if_true]
  rw [if_neg (not_lt.mpr htrig), if_pos hqpos, if_neg hfirst, if_neg (not_lt.mpr hmove)]
  exact ⟨rfl, rfl, rfl, rfl⟩

/-- Witness for C7: a state at its second adaptation point (`last_q = 1000`,
`queries = 6000`), where `dC = 1/10 > 0` and `dD = 1/10 > 0`, so the rule
reverses direction: `D` moves from `3/5` to `clamp01 (3/5 - 1/20)`. -/
theorem claim_C7_adapter_rule_witness :
    c7state.params.adapt_sampling = true ∧
      5000 ≤ (c7state.stats.queries : Int) - (c7state.last_q_for_adapt : Int) ∧
      c7state.last_q_for_adapt ≠ 0 ∧
      (1/1000000000 : ℚ) ≤ |c7state.params.sampling_rate - c7state.last_D| ∧
      ((hc_maybe_adapt_sampling c7state).last_D = c7state.params.sampling_rate ∧
        (hc_maybe_adapt_sampling c7state).last_cost =
          ((c7state.stats.hot_node_visits : ℚ) + (c7state.stats.cold_node_visits : ℚ)) /
            (c7state.stats.queries : ℚ) ∧
        (hc_maybe_adapt_sampling c7state).last_q_for_adapt = c7state.stats.queries ∧
        (hc_maybe_adapt_sampling c7state).params.sampling_rate =
          clamp01
            (if (((c7state.stats.hot_node_visits : ℚ) + (c7state.stats.cold_node_visits : ℚ)) /
                  (c7state.stats.queries : ℚ) - c7state.last_cost) *
                  (c7state.params.sampling_rate - c7state.last_D) < 0
             then c7state.params.sampling_rate +
                (1/20) * (if 0 < c7state.params.sampling_rate - c7state.last_D then 1 else -1)
             else if 0 < (((c7state.stats.hot_node_visits : ℚ) +
                  (c7state.stats.cold_node_visits : ℚ)) /
                  (c7state.stats.queries : ℚ) - c7state.last_cost) *
                  (c7state.params.sampling_rate - c7state.last_D)
             then c7state.params.sampling_rate -
                (1/20) * (if 0 < c7state.params.sampling_rate - c7state.last_D then 1 else -1)
             else c7state.params.sampling_rate)) := by
  have habs : (1/1000000000 : ℚ) ≤ |c7state.params.sampling_rate - c7state.last_D| := by
    have : c7state.params.sampling_rate - c7state.last_D = 1/10 := by norm_num [c7state]
    rw [this, abs_of_nonneg (by norm_num : (0:ℚ) ≤ 1/10)]
    norm_num
  refine ⟨rfl, by norm_num [c7state], by norm_num [c7state], habs, ?_⟩
  exact claim_C7_adapter_rule c7state rfl (by norm_num [c7state]) (by norm_num [c7state]) habs

/-- C4 counterexample: in a state satisfying every condition of the claim
(`sampling_rate = 1`, inclusive, hot strictly below capacity, key 1 in cold
but not hot, updated score reaching the threshold, draw `u = 39/40 ∈ [0,1)`),
the very `hc_search(1)` call first runs an adaptation step (5001 queries
since the last one, hot-hit fraction `4000/5001 ≥ 0.6`), which lowers the
sampling rate to `19/20` before the promotion gate runs; the draw
`39/40 > 19/20` is then sampled out and key 1 is NOT inserted into hot. -/
theorem claim_C4_counterexample :
    c4state.params.sampling_rate = 1 ∧
      c4state.params.inclusive = true ∧
      (bt_count_keys c4state.hot : ℚ) <
        c4state.params.max_hot_fraction * ((c4state.max_key + 1 : Int) : ℚ) ∧
      (0 : Int) ≤ 1 ∧ (1 : Int) ≤ c4state.max_key ∧
      bt_search c4state.cold 1 = some 20 ∧
      bt_search c4state.hot 1 = none ∧
      c4state.params.hot_threshold ≤ c4state.params.decay_alpha * scoreGet c4state 1 + 1 ∧
      (0 : ℚ) ≤ 39/40 ∧ (39/40 : ℚ) < 1 ∧
      bt_search ((hc_search c4state 1 (39/40) 0 0).state).hot 1 = none := by
  refine ⟨rfl, rfl, ?_, by norm_num, ?_, ?_, ?_, ?_, by norm_num, by norm_num, ?_⟩ <;>
    norm_num [c4state, c4params, hc_search, hc_maybe_adapt_sampling, maybe_promote,
      bt_insert, bt_search, bt_count_keys, scoreGet, clamp01]

/-- C4 (amended): deterministic promotion at full sampling holds provided
the call triggers no adaptation step (adaptation disabled, or fewer than
5000 queries since the last adaptation point): if `sampling_rate = 1`,
`inclusive = true`, the hot tier is strictly below its capacity bound, `k`
is in domain, present in cold and absent from hot, and the updated hit
score reaches `hot_threshold`, then `hc_search(k)` inserts `k` with its
cold payload into the hot tier on that very call, for every draw
`u ∈ [0, 1)`. -/
theorem claim_C4_promotion {V : Type} (s : HCIndex V) (k : Int) (u : ℚ) (hv cv : Nat) (v : V)
    (hAtrig : s.params.adapt_sampling = false ∨
      ((s.stats.queries : Int) + 1) - (s.last_q_for_adapt : Int) < 5000)
    (hD : s.params.sampling_rate = 1) (hinc : s.params.inclusive = true)
    (hcap : (bt_count_keys s.hot : ℚ) < s.params.max_hot_fraction * ((s.max_key + 1 : Int) : ℚ))
    (hdom : 0 ≤ k ∧ k ≤ s.max_key)
    (hh : bt_search s.hot k = none) (hc : bt_search s.cold k = some v)
    (hth : s.params.hot_threshold ≤ s.params.decay_alpha * scoreGet s k + 1)
    (hu0 : 0 ≤ u) (hu1 : u < 1) :
    bt_search (hc_search s k u hv cv).state.hot k = some v ∧
      (hc_search s k u hv cv).payload = some v :=
  hc_search_promotes s k u hv cv v hAtrig hD hinc hcap hdom hh hc hth hu0 hu1

/-- Witness for C4: with adaptation disabled and full sampling, searching
key 3 (cold-only, score crossing the threshold) promotes it. -/
theorem claim_C4_promotion_witness :
    (c4wstate.params.adapt_sampling = false ∨
        ((c4wstate.stats.queries : Int) + 1) - (c4wstate.last_q_for_adapt : Int) < 5000) ∧
      c4wstate.params.sampling_rate = 1 ∧ c4wstate.params.inclusive = true ∧
      (bt_count_keys c4wstate.hot : ℚ) <
        c4wstate.params.max_hot_fraction * ((c4wstate.max_key + 1 : Int) : ℚ) ∧
      (0 ≤ (3 : Int) ∧ (3 : Int) ≤ c4wstate.max_key) ∧
      bt_search c4wstate.hot 3 = none ∧ bt_search c4wstate.cold 3 = some 7 ∧
      c4wstate.params.hot_threshold ≤
        c4wstate.params.decay_alpha * scoreGet c4wstate 3 + 1 ∧
      (0 : ℚ) ≤ 1/2 ∧ (1/2 : ℚ) < 1 ∧
      (bt_search (hc_search c4wstate 3 (1/2) 0 0).state.hot 3 = some 7 ∧
        (hc_search c4wstate 3 (1/2) 0 0).payload = some 7) := by
  refine ⟨Or.inl rfl, rfl, rfl, ?_, ?_, ?_, ?_, ?_, by norm_num, by norm_num, ?_⟩
  · norm_num [c4wstate, bt_count_keys]
  · norm_num [c4wstate]
  · norm_num [c4wstate, bt_search]
  · norm_num [c4wstate, bt_search]
  · norm_num [c4wstate, scoreGet, bt_search]
  · exact claim_C4_promotion c4wstate 3 (1/2) 0 0 7 (Or.inl rfl) rfl rfl
      (by norm_num [c4wstate, bt_count_keys])
      (by constructor <;> norm_num [c4wstate])
      (by norm_num [c4wstate, bt_search]) (by norm_num [c4wstate, bt_search])
      (by norm_num [c4wstate, scoreGet, bt_search]) (by norm_num) (by norm_num)

/-- C8 (amended): decay monotonicity for `0 < decay_alpha < 1`. -/
theorem claim_C8_decay {V : Type} (s : HCIndex V) (k : Int) (us : Nat → ℚ)
    (hvs cvs : Nat → Nat)
    (hdom : 0 ≤ k ∧ k ≤ s.max_key)
    (hmem : (bt_search s.hot k).isSome ∨ (bt_search s.cold k).isSome)
    (hscore0 : scoreGet s k = 0)
    (ha0 : 0 < s.params.decay_alpha) (ha1 : s.params.decay_alpha < 1) :
    (∀ n, scoreGet (searchIter s k us hvs cvs n) k =
        ∑ i in Finset.range n, s.params.decay_alpha ^ i) ∧
      StrictMono (fun n => scoreGet (searchIter s k us hvs cvs n) k) ∧
      (∀ n, scoreGet (searchIter s k us hvs cvs n) k < 1 / (1 - s.params.decay_alpha)) ∧
      Filter.Tendsto (fun n => ((scoreGet (searchIter s k us hvs cvs n) k : ℚ) : ℝ))
        Filter.atTop (nhds (1 / (1 - (s.params.decay_alpha : ℝ)))) := by
  have heq := searchIter_score s k us hvs cvs hdom hmem hscore0
  have hsub : (0 : ℚ) < 1 - s.params.decay_alpha := by linarith
  refine ⟨heq, ?_, ?_, ?_⟩
  · apply strictMono_nat_of_lt_succ
    intro n
    rw [heq n, heq (n + 1), Finset.sum_range_succ]
    have := pow_pos ha0 n
    linarith
  · intro n
    rw [heq n, lt_div_iff hsub]
    have hgm := geom_sum_mul s.params.decay_alpha n
    have hpow := pow_pos ha0 n
    nlinarith [hgm, hpow]
  · have hcast : ∀ n, ((scoreGet (searchIter s k us hvs cvs n) k : ℚ) : ℝ) =
        ∑ i in Finset.range n, ((s.params.decay_alpha : ℚ) : ℝ) ^ i := by
      intro n
      rw [heq n]
      push_cast
      rfl
    simp only [hcast]
    have h0 : (0 : ℝ) ≤ ((s.params.decay_alpha : ℚ) : ℝ) := by
      exact_mod_cast ha0.le
    have h1 : ((s.params.decay_alpha : ℚ) : ℝ) < 1 := by
      exact_mod_cast ha1
    have hs := (hasSum_geometric_of_lt_one h0 h1).tendsto_sum_nat
    rw [one_div]
    exact hs

/-- C8 counterexample: `decay_alpha = 0` lies in `[0, 1)`, yet after the
first hit the score is pinned at 1: the second consecutive successful
search does not strictly increase it, and it does not stay below
`1/(1 - decay_alpha) = 1`.  So the claim fails for `decay_alpha = 0`. -/
theorem claim_C8_counterexample :
    (0 : ℚ) ≤ c8state.params.decay_alpha ∧ c8state.params.decay_alpha < 1 ∧
      scoreGet c8state 0 = 0 ∧ (bt_search c8state.cold 0).isSome ∧
      scoreGet (c8iter 1) 0 = 1 ∧ scoreGet (c8iter 2) 0 = 1 ∧
      ¬(scoreGet (c8iter 1) 0 < scoreGet (c8iter 2) 0) ∧
      ¬(scoreGet (c8iter 2) 0 < 1 / (1 - c8state.params.decay_alpha)) := by
  rw [show c8iter 2 = (hc_search (hc_search c8state 0 0 0 0).state 0 0 0 0).state from rfl,
    show c8iter 1 = (hc_search c8state 0 0 0 0).state from rfl]
  norm_num [c8state, c8params, hcRun, hcStep, hc_create, hc_insert, hc_search,
    hc_maybe_adapt_sampling, maybe_promote, bt_insert, bt_search, bt_count_keys,
    scoreGet, clamp01]

/-- Witness for C8: the amended theorem at `decay_alpha = 1/2` on a
reachable state holding key 0 cold with score 0. -/
theorem claim_C8_decay_witness :
    ((0 ≤ (0 : Int) ∧ (0 : Int) ≤ c8wstate.max_key) ∧
        ((bt_search c8wstate.hot 0).isSome ∨ (bt_search c8wstate.cold 0).isSome) ∧
        scoreGet c8wstate 0 = 0 ∧
        (0 : ℚ) < c8wstate.params.decay_alpha ∧ c8wstate.params.decay_alpha < 1) ∧
      ((∀ n, scoreGet (searchIter c8wstate 0 (fun _ => 0) (fun _ => 0) (fun _ => 0) n) 0 =
          ∑ i in Finset.range n, c8wstate.params.decay_alpha ^ i) ∧
        StrictMono (fun n =>
          scoreGet (searchIter c8wstate 0 (fun _ => 0) (fun _ => 0) (fun _ => 0) n) 0) ∧
        (∀ n, scoreGet (searchIter c8wstate 0 (fun _ => 0) (fun _ => 0) (fun _ => 0) n) 0 <
          1 / (1 - c8wstate.params.decay_alpha)) ∧
        Filter.Tendsto (fun n =>
            ((scoreGet (searchIter c8wstate 0 (fun _ => 0) (fun _ => 0) (fun _ => 0) n) 0 :
              ℚ) : ℝ))
          Filter.atTop (nhds (1 / (1 - (c8wstate.params.decay_alpha : ℝ))))) := by
  have hdom : 0 ≤ (0 : Int) ∧ (0 : Int) ≤ c8wstate.max_key := by
    constructor <;> norm_num [c8wstate, c8wparams, hcRun, hcStep, hc_create, hc_insert]
  have hmem : (bt_search c8wstate.hot 0).isSome ∨ (bt_search c8wstate.cold 0).isSome := by
    right
    norm_num [c8wstate, c8wparams, hcRun, hcStep, hc_create, hc_insert, bt_insert, bt_search]
  have hs0 : scoreGet c8wstate 0 = 0 := by
    norm_num [c8wstate, c8wparams, hcRun, hcStep, hc_create, hc_insert, scoreGet, bt_search]
  have ha0 : (0 : ℚ) < c8wstate.params.decay_alpha := by
    norm_num [c8wstate, c8wparams, hcRun, hcStep, hc_create, hc_insert]
  have ha1 : c8wstate.params.decay_alpha < 1 := by
    norm_num [c8wstate, c8wparams, hcRun, hcStep, hc_create, hc_insert]
  exact ⟨⟨hdom, hmem, hs0, ha0, ha1⟩,
    claim_C8_decay c8wstate 0 (fun _ => 0) (fun _ => 0) (fun _ => 0) hdom hmem hs0 ha0 ha1⟩
